import Mathlib

/-
Verification of the mlxp query-filter engine
(`src/experimentalist/reading/parser.py`): the PLY lexer rules, the yacc
precedence grammar, and the compilation of filter expressions into record
predicates (tinydb queries).

Numbers are modelled exactly (integers as ℤ, decimal literals as ℚ); no
claim below involves a decimal literal whose Python float rounding would
be observable.
-/

namespace MlxpFilter

/-- Literal payload of a `SCALAR` token (decoded by `ast.literal_eval` in the
lexer actions): Python int, float, string or boolean. -/
inductive Lit where
  | int (n : ℤ)
  | float (q : ℚ)
  | str (s : String)
  | bool (b : Bool)
deriving DecidableEq

/-- A record value: a nested mapping with string keys whose leaves are
scalars or lists (the documents tinydb applies a compiled query to). -/
inductive Value where
  | int (n : ℤ)
  | float (q : ℚ)
  | str (s : String)
  | bool (b : Bool)
  | list (vs : List Value)
  | dict (fields : List (String × Value))

/-- First-match association-list lookup (Python dict keys are unique, so
this models `d[k]`). -/
def lookupStr : List (String × Value) → String → Option Value
  | [], _ => none
  | (k, v) :: rest, s => if k = s then some v else lookupStr rest s

/-- Split a string on `'.'`, Python `str.split('.')` style:
`"a.b" ↦ ["a","b"]`, `"a..b" ↦ ["a","","b"]`, `"" ↦ [""]`. -/
def splitOnDot : List Char → List (List Char)
  | [] => [[]]
  | '.' :: rest => [] :: splitOnDot rest
  | c :: rest =>
    match splitOnDot rest with
    | seg :: segs => (c :: seg) :: segs
    | [] => [[c]]

/-- The segments of a dotted field path. -/
def splitPath (key : String) : List String :=
  (splitOnDot key.data).map List.asString

/-- Modelled from the spec: field resolution over a record (the tinydb
`Query` path walk, which is not part of src/). Given a value and a list of
path segments, walk successive mapping lookups by segment; a missing
segment, or a non-mapping intermediate value while segments remain,
resolves to `none` ("absent", not an error). -/
def resolveSegs : Value → List String → Option Value
  | v, [] => some v
  | .dict fs, s :: rest =>
    match lookupStr fs s with
    | some u => resolveSegs u rest
    | none => none
  | _, _ :: _ => none

/-- Resolution of a dotted field path (as carried by an `ID` token) against
a record: split on `'.'` and walk the segments. -/
def resolveField (r : Value) (key : String) : Option Value :=
  resolveSegs r (splitPath key)

/-- Relational presentation of field resolution: `ResolvesTo r ss v` holds
iff starting from record `r` and walking one mapping lookup per segment of
`ss` reaches the value `v`. -/
inductive ResolvesTo : Value → List String → Value → Prop where
  | nil : ∀ v, ResolvesTo v [] v
  | step : ∀ fs s u ss w, lookupStr fs s = some u → ResolvesTo u ss w →
      ResolvesTo (.dict fs) (s :: ss) w

/-- Numeric view of a literal. Python identifies `bool` with the integers
0/1 for comparison purposes (`True == 1`). -/
def Lit.toRat? : Lit → Option ℚ
  | .int n => some (n : ℚ)
  | .float q => some q
  | .bool b => some (if b then 1 else 0)
  | .str _ => none

/-- Numeric view of a record value (same convention as `Lit.toRat?`). -/
def Value.toRat? : Value → Option ℚ
  | .int n => some (n : ℚ)
  | .float q => some q
  | .bool b => some (if b then 1 else 0)
  | _ => none

/-- Python `==` between a resolved record value and a scalar literal:
numbers (int/float/bool) compare numerically, strings by value, and any
other combination of kinds is unequal (never an error). -/
def pyEqLit (v : Value) (l : Lit) : Bool :=
  match v.toRat?, l.toRat? with
  | some a, some b => a = b
  | _, _ =>
    match v, l with
    | .str s, .str t => s = t
    | _, _ => false

/-- Three-way comparison underlying the ordering operators: defined for
number-number and string-string operand pairs, undefined (`none`) for any
other combination. -/
def pyCompare? (v : Value) (l : Lit) : Option Ordering :=
  match v.toRat?, l.toRat? with
  | some a, some b => some (if a < b then .lt else if a = b then .eq else .gt)
  | _, _ =>
    match v, l with
    | .str s, .str t => some (if s < t then .lt else if s = t then .eq else .gt)
    | _, _ => none

/-- Semantics of `==` (entry `eq` of the source's `ops` table, applied by
tinydb as `resolved_value == literal`). -/
def opEq (v : Value) (l : Lit) : Bool := pyEqLit v l

/-- Semantics of `!=` (entry `ne`). Mismatched kinds are unequal, hence
`!=` yields true on them. -/
def opNe (v : Value) (l : Lit) : Bool := !(pyEqLit v l)

/-- Semantics of `<` (entry `lt`). Modelled from the spec: operand pairs
that are not comparable yield `false` rather than an error. -/
def opLt (v : Value) (l : Lit) : Bool :=
  match pyCompare? v l with
  | some .lt => true
  | _ => false

/-- Semantics of `<=` (entry `le`); mismatched kinds yield `false`. -/
def opLe (v : Value) (l : Lit) : Bool :=
  match pyCompare? v l with
  | some .lt => true
  | some .eq => true
  | _ => false

/-- Semantics of `>` (entry `gt`); mismatched kinds yield `false`. -/
def opGt (v : Value) (l : Lit) : Bool :=
  match pyCompare? v l with
  | some .gt => true
  | _ => false

/-- Semantics of `>=` (entry `ge`); mismatched kinds yield `false`. -/
def opGe (v : Value) (l : Lit) : Bool :=
  match pyCompare? v l with
  | some .gt => true
  | some .eq => true
  | _ => false

/-- The source's `ops` dictionary mapping an operator lexeme to its
comparison semantics; `none` models a failed `ops.get(op, None)`. -/
def lookupOps : String → Option (Value → Lit → Bool)
  | "==" => some opEq
  | "!=" => some opNe
  | "<=" => some opLe
  | ">=" => some opGe
  | "<" => some opLt
  | ">" => some opGt
  | _ => none

/-- A compiled record predicate. -/
abbrev Pred := Value → Bool

/-- Modelled from the spec: applying a field test through a tinydb
`Query()[key]` object (not part of src/): resolve the field path; an
absent field makes the whole test `false`, otherwise the test runs on the
resolved value. -/
def fieldTest (key : String) (test : Value → Bool) : Pred :=
  fun r =>
    match resolveField r key with
    | some v => test v
    | none => false

/-- The source's `binOp(k, op, v)`: look the operator lexeme up in `ops`;
an unknown lexeme raises `ValueError` (the `.error` branch), otherwise the
comparison test is attached to the field `k`. -/
def binOp (k : String) (op : String) (v : Lit) : Except String Pred :=
  match lookupOps op with
  | some opf => .ok (fieldTest k (fun rv => opf rv v))
  | none => .error "Unknown operator"

/-- The source's `inclusionOp(key, values)` (tinydb `one_of`): true iff
the resolved field value equals some element of the list, by the same
equality as `==`. -/
def inclusionOp (key : String) (values : List Lit) : Pred :=
  fieldTest key (fun rv => values.any (fun l => pyEqLit rv l))

/-- The source's `andOp` (tinydb `&`): conjunction of both tests. -/
def andOp (left right : Pred) : Pred := fun r => left r && right r

/-- The source's `orOp` (tinydb `|`): disjunction of both tests. -/
def orOp (left right : Pred) : Pred := fun r => left r || right r

/-- The source's `notOp` (tinydb `~`): negation of the test. -/
def notOp (e : Pred) : Pred := fun r => !(e r)

/-- The token kinds emitted by the lexer (the `tokens` tuple of the
source; `BOOL` and `STRING` rules retag themselves as `SCALAR`, so no
separate kinds exist for them). -/
inductive Token where
  | idT (s : String)
  | scalarT (v : Lit)
  | listT (vs : List Lit)
  | eqT
  | neT
  | ltT
  | gtT
  | leT
  | geT
  | andT
  | orT
  | notT
  | lparenT
  | rparenT
  | inT
deriving DecidableEq

/-- Characters matched by the identifier character class of the `t_ID`
rule (ASCII letters, digits, underscore). -/
def isIdChar (c : Char) : Bool := c.isAlpha || c.isDigit || c = '_'

/-- Whitespace skipped inside a Python literal expression. -/
def isPyWs (c : Char) : Bool := c = ' ' || c = '\t' || c = '\n' || c = '\r'

/-- Numeric value of a digit run. -/
def natOfDigits (ds : List Char) : Nat :=
  ds.foldl (fun a c => a * 10 + (c.toNat - '0'.toNat)) 0

/-- Exact value of the decimal literal `d1.d2`. -/
def ratOfDigits (d1 d2 : List Char) : ℚ :=
  (natOfDigits d1 : ℚ) + (natOfDigits d2 : ℚ) / (10 : ℚ) ^ d2.length

/-- Models `ast.literal_eval` on an integer literal: Python rejects
leading zeros in a nonzero-length decimal integer literal. -/
def intLitEval (ds : List Char) : Except String Lit :=
  match ds with
  | '0' :: _ :: _ => .error "invalid syntax"
  | _ => .ok (.int (natOfDigits ds : ℤ))

/-- Models `ast.literal_eval` on a quoted string literal whose delimiters
have been stripped. Escape sequences never occur in the inputs considered
here; content holding a backslash is outside the model and rejected. -/
def strLitEval (content : List Char) : Except String Lit :=
  if content.any (fun c => c = '\\') then .error "unsupported escape"
  else .ok (.str content.asString)

/-- Models `ast.literal_eval` on the text matched by the `t_BOOL` rule.
The rule's regex matches `true`/`false` case-insensitively, but
`ast.literal_eval` only accepts the exact Python literals `True` and
`False`; every other casing raises `ValueError`. -/
def boolLitEval (matched : List Char) : Except String Lit :=
  if matched.asString = "True" then .ok (.bool true)
  else if matched.asString = "False" then .ok (.bool false)
  else .error "malformed node or string"

/-- One element of a Python list literal, as accepted by
`ast.literal_eval`: a quoted string, a (signed) number, or the exact
boolean literals `True`/`False`. An identifier-like word such as `true`
is a `Name` node, which `ast.literal_eval` rejects with `ValueError`. -/
def litElem (cs : List Char) : Except String (Lit × List Char) :=
  match cs with
  | '\'' :: rest =>
    match List.span (fun c => c ≠ '\'' && c ≠ '\n') rest with
    | (content, '\'' :: after) =>
      match strLitEval content with
      | .ok l => .ok (l, after)
      | .error e => .error e
    | _ => .error "malformed node or string"
  | '"' :: rest =>
    match List.span (fun c => c ≠ '"' && c ≠ '\n') rest with
    | (content, '"' :: after) =>
      match strLitEval content with
      | .ok l => .ok (l, after)
      | .error e => .error e
    | _ => .error "malformed node or string"
  | c :: _ =>
    if c = '-' || c = '+' || c.isDigit then
      let (sign, cs1) := if c = '-' || c = '+' then (c == '-', cs.drop 1) else (false, cs)
      match List.span Char.isDigit cs1 with
      | ([], _) => .error "malformed node or string"
      | (d1, r1) =>
        match r1 with
        | '.' :: r2 =>
          match List.span Char.isDigit r2 with
          | ([], _) => .error "malformed node or string"
          | (d2, r3) =>
            let q := ratOfDigits d1 d2
            .ok (.float (if sign then -q else q), r3)
        | _ =>
          match intLitEval d1 with
          | .ok (.int n) => .ok (.int (if sign then -n else n), r1)
          | _ => .error "invalid syntax"
    else
      match List.span isIdChar cs with
      | ('T' :: 'r' :: 'u' :: 'e' :: [], rest) => .ok (.bool true, rest)
      | ('F' :: 'a' :: 'l' :: 's' :: 'e' :: [], rest) => .ok (.bool false, rest)
      | _ => .error "malformed node or string"
  | [] => .error "malformed node or string"

/-- The comma-separated elements of a list literal body (between the
brackets), with optional whitespace and an optional trailing comma, as
`ast.literal_eval` accepts them. -/
def listElems : Nat → List Char → Except String (List Lit)
  | 0, _ => .error "fuel exhausted"
  | fuel + 1, cs =>
    match List.dropWhile isPyWs cs with
    | [] => .ok []
    | cs1 =>
      match litElem cs1 with
      | .ok (l, rest) =>
        match List.dropWhile isPyWs rest with
        | [] => .ok [l]
        | ',' :: r2 =>
          match listElems fuel r2 with
          | .ok more => .ok (l :: more)
          | .error e => .error e
        | _ => .error "malformed node or string"
      | .error e => .error e

/-- Models `ast.literal_eval` applied by the `t_LIST` action to the text
between the brackets (the regex forbids a `]` inside, so nested lists
cannot reach this point). -/
def listLitEval (content : List Char) : Except String (List Lit) :=
  listElems (content.length + 1) content

/-- A lexer rule at the current position: `none` when the rule's regex
does not match there (the master regex then tries the next rule), `some`
when it matches — carrying the action's result, whose `.error` case is a
raised exception that aborts the whole tokenization. -/
abbrev LexRule := List Char → Option (Except String (Token × List Char))

/-- Rule `t_LIST`, regex `\[[^\]]*\]`: a bracket, everything up to the
first closing bracket, and that bracket; the action decodes the matched
text with `ast.literal_eval`. -/
def t_LIST : LexRule
  | '[' :: rest =>
    match List.span (fun c => c ≠ ']') rest with
    | (content, ']' :: after) =>
      match listLitEval content with
      | .ok vs => some (.ok (.listT vs, after))
      | .error e => some (.error e)
    | _ => none
  | _ => none

/-- Case-insensitive prefix test (ASCII), as performed by an `(?i)`
alternative of the master regex. -/
def matchCI (pat : String) (cs : List Char) : Bool :=
  (cs.take pat.length).map Char.toLower = pat.data

/-- Rule `t_BOOL`, regex `(?i)(true|false)`: matches either word in any
letter case; the action calls `ast.literal_eval` on the matched text,
which only succeeds for the exact spellings `True` and `False`. -/
def t_BOOL : LexRule := fun cs =>
  if matchCI "true" cs then
    some (boolLitEval (cs.take 4) |>.map (fun l => (.scalarT l, cs.drop 4)))
  else if matchCI "false" cs then
    some (boolLitEval (cs.take 5) |>.map (fun l => (.scalarT l, cs.drop 5)))
  else none

/-- Rule `t_STRING`, regex `\'(.*?)\'`: a single-quoted string on one line
(`.` does not match a newline); the action decodes it to its contents. -/
def t_STRING : LexRule
  | '\'' :: rest =>
    match List.span (fun c => c ≠ '\'' && c ≠ '\n') rest with
    | (content, '\'' :: after) =>
      match strLitEval content with
      | .ok l => some (.ok (.scalarT l, after))
      | .error e => some (.error e)
    | _ => none
  | _ => none

/-- Rule `t_SCALAR`, regex `[0-9]+(\.[0-9]+)?|\'[^\']*\'|\"[^\"]*\"`: an
integer or decimal number, or a quoted string (the single-quote
alternative is shadowed by `t_STRING`, which runs first); the action
decodes with `ast.literal_eval`. -/
def t_SCALAR : LexRule := fun cs =>
  match cs with
  | c :: _ =>
    if c.isDigit then
      match List.span Char.isDigit cs with
      | (d1, r1) =>
        match r1 with
        | '.' :: r2 =>
          if (r2.take 1).any Char.isDigit then
            match List.span Char.isDigit r2 with
            | (d2, r3) => some (.ok (.scalarT (.float (ratOfDigits d1 d2)), r3))
          else
            some ((intLitEval d1).map (fun l => (.scalarT l, r1)))
        | _ => some ((intLitEval d1).map (fun l => (.scalarT l, r1)))
    else if c = '"' then
      match List.span (fun x => x ≠ '"') (cs.drop 1) with
      | (content, '"' :: after) =>
        match strLitEval content with
        | .ok l => some (.ok (.scalarT l, after))
        | .error e => some (.error e)
      | _ => none
    else if c = '\'' then
      match List.span (fun x => x ≠ '\'') (cs.drop 1) with
      | (content, '\'' :: after) =>
        match strLitEval content with
        | .ok l => some (.ok (.scalarT l, after))
        | .error e => some (.error e)
      | _ => none
    else none
  | [] => none

/-- Greedy continuation of the `t_ID` regex: as many `\.segment` groups
as possible. Returns the matched characters and the rest. -/
def idDots : Nat → List Char → List Char × List Char
  | 0, rest => ([], rest)
  | fuel + 1, rest =>
    match rest with
    | '.' :: c :: cs2 =>
      if isIdChar c then
        match List.span isIdChar (c :: cs2) with
        | (seg, r2) =>
          match idDots fuel r2 with
          | (more, r3) => ('.' :: seg ++ more, r3)
      else ([], rest)
    | _ => ([], rest)

/-- Rule `t_ID`, regex `[a-zA-Z_\d]+(\.[a-zA-Z_\d]+)*`: a dotted
identifier; the action turns the reserved word `in` into the `IN` keyword
token and keeps every other match as an `ID` token carrying the raw
dotted string. -/
def t_ID : LexRule := fun cs =>
  match cs with
  | c :: _ =>
    if isIdChar c then
      match List.span isIdChar cs with
      | (seg1, r1) =>
        match idDots r1.length r1 with
        | (more, rest) =>
          let text := (seg1 ++ more).asString
          if text = "in" then some (.ok (.inT, rest))
          else some (.ok (.idT text, rest))
    else none
  | [] => none

/-- The string-defined operator rules of the lexer, tried after every
function rule, two-character regexes before one-character ones
(`t_EQUAL`, `t_LESS_THAN_OR_EQUAL`, `t_GREATER_THAN_OR_EQUAL`,
`t_NOT_EQUAL`, `t_OR`, `t_LPAREN`, `t_RPAREN`, then `t_LESS_THAN`,
`t_GREATER_THAN`, `t_AND`, `t_NOT`; the `t_IN` string rule is shadowed by
`t_ID`, which matches `in` first). -/
def opRules : LexRule
  | '=' :: '=' :: r => some (.ok (.eqT, r))
  | '<' :: '=' :: r => some (.ok (.leT, r))
  | '>' :: '=' :: r => some (.ok (.geT, r))
  | '!' :: '=' :: r => some (.ok (.neT, r))
  | '|' :: r => some (.ok (.orT, r))
  | '(' :: r => some (.ok (.lparenT, r))
  | ')' :: r => some (.ok (.rparenT, r))
  | '<' :: r => some (.ok (.ltT, r))
  | '>' :: r => some (.ok (.gtT, r))
  | '&' :: r => some (.ok (.andT, r))
  | '~' :: r => some (.ok (.notT, r))
  | _ => none

/-- One step of the lexer: the master regex tries the rules in priority
order (function rules in definition order, then the string rules); if
none matches, `t_error` raises `SyntaxError`. -/
def lexStep (cs : List Char) : Except String (Token × List Char) :=
  match t_LIST cs <|> t_BOOL cs <|> t_STRING cs <|> t_SCALAR cs <|> t_ID cs <|> opRules cs with
  | some r => r
  | none => .error "Illegal character"

/-- The lexer main loop: skip ignored characters (space, tab), then match
one token and continue. -/
def lexRun : Nat → List Char → Except String (List Token)
  | 0, _ => .error "fuel exhausted"
  | _ + 1, [] => .ok []
  | fuel + 1, c :: cs =>
    if c = ' ' || c = '\t' then lexRun fuel cs
    else
      match lexStep (c :: cs) with
      | .ok (tok, rest) =>
        match lexRun fuel rest with
        | .ok toks => .ok (tok :: toks)
        | .error e => .error e
      | .error e => .error e

/-- `tokenize` turns an expression string into the token stream (the PLY
lexer driven to exhaustion). -/
def tokenize (s : String) : Except String (List Token) :=
  lexRun (s.length + 1) s.data

/-- Whether the `t_ID` rule alone would match the whole input (used to
state that some full identifiers are nevertheless not tokenized as one
`ID` token). -/
def idRuleMatchesAll (s : String) : Bool :=
  match t_ID s.data with
  | some (Except.ok (_, [])) => true
  | _ => false

/-- The abstract syntax produced by the grammar. A comparison node keeps
the operator lexeme exactly as the parse action receives it in `p[2]`
(`binOp` later looks it up in the `ops` table), and the field keeps the
raw dotted identifier (split only at resolution time). -/
inductive Ast where
  | cmp (field : String) (op : String) (value : Lit)
  | member (field : String) (values : List Lit)
  | andN (left right : Ast)
  | orN (left right : Ast)
  | notN (operand : Ast)

/-- The operator lexeme carried by a comparison operator token (the text
the corresponding string rule matched); `none` for every other token. -/
def cmpLex : Token → Option String
  | .eqT => some "=="
  | .neT => some "!="
  | .ltT => some "<"
  | .gtT => some ">"
  | .leT => some "<="
  | .geT => some ">="
  | _ => none

/-- Recursion mode of the parser: `u` parses one unary item (a
comparison, a membership test, a parenthesized group, or `NOT` applied to
a unary item — `NOT` binds tighter than `AND`/`OR`), `bin min` parses a
full expression whose binary operators all bind at least as tightly as
`min`, and `loop min left` extends `left` with further binary operators
of precedence at least `min`. -/
inductive PMode where
  | u
  | bin (min : Nat)
  | loop (min : Nat) (left : Ast)

/-- The parser, a precedence-climbing rendering of the yacc grammar with
its precedence table OR(1) < AND(2) < NOT(3) < comparison (comparisons
are atomic: identifier, operator, scalar/list literal). OR and AND are
left-associative: after consuming one of them the right operand is parsed
at the next tighter level. The fuel argument strictly decreases; the top
entry supplies more fuel than any input can use. -/
def parseGo : Nat → PMode → List Token → Except String (Ast × List Token)
  | 0, _, _ => .error "Syntax error in input!"
  | fuel + 1, .u, .notT :: rest =>
    (match parseGo fuel .u rest with
     | .ok (e, r) => .ok (.notN e, r)
     | .error msg => .error msg)
  | fuel + 1, .u, .lparenT :: rest =>
    (match parseGo fuel (.bin 0) rest with
     | .ok (e, .rparenT :: r2) => .ok (e, r2)
     | .ok (_, _) => .error "Syntax error in input!"
     | .error msg => .error msg)
  | _ + 1, .u, .idT f :: t :: .scalarT v :: rest =>
    (match cmpLex t with
     | some op => .ok (.cmp f op v, rest)
     | none => .error "Syntax error in input!")
  | _ + 1, .u, .idT f :: .inT :: .listT vs :: rest => .ok (.member f vs, rest)
  | _ + 1, .u, _ => .error "Syntax error in input!"
  | fuel + 1, .bin min, ts =>
    (match parseGo fuel .u ts with
     | .ok (l, r) => parseGo fuel (.loop min l) r
     | .error msg => .error msg)
  | fuel + 1, .loop min left, .orT :: rest =>
    if min ≤ 1 then
      match parseGo fuel (.bin 2) rest with
      | .ok (right, r2) => parseGo fuel (.loop min (.orN left right)) r2
      | .error msg => .error msg
    else .ok (left, .orT :: rest)
  | fuel + 1, .loop min left, .andT :: rest =>
    if min ≤ 2 then
      match parseGo fuel (.bin 3) rest with
      | .ok (right, r2) => parseGo fuel (.loop min (.andN left right)) r2
      | .error msg => .error msg
    else .ok (left, .andT :: rest)
  | _ + 1, .loop _ left, ts => .ok (left, ts)

/-- Parse a complete token sequence: the whole input must reduce to one
expression; leftover tokens, like any other grammar violation, raise the
`p_error` exception. -/
def parseTokens (ts : List Token) : Except String Ast :=
  match parseGo (2 * ts.length + 2) (.bin 0) ts with
  | .ok (a, []) => .ok a
  | .ok (_, _ :: _) => .error "Syntax error in input!"
  | .error msg => .error msg

/-- The full front half of the pipeline: tokenize, then parse. -/
def parseFilter (s : String) : Except String Ast :=
  match tokenize s with
  | .ok ts => parseTokens ts
  | .error msg => .error msg

/-- Compilation of an AST into a record predicate: exactly the work the
source's parse actions do while reducing (`binOp`, `inclusionOp`,
`andOp`, `orOp`, `notOp`), separated from parsing as in the spec's
architecture. Only `binOp` can fail (unknown operator lexeme). -/
def compile : Ast → Except String Pred
  | .cmp k op v => binOp k op v
  | .member k vs => .ok (inclusionOp k vs)
  | .andN a b =>
    (match compile a, compile b with
     | .ok pa, .ok pb => .ok (andOp pa pb)
     | .error e, _ => .error e
     | _, .error e => .error e)
  | .orN a b =>
    (match compile a, compile b with
     | .ok pa, .ok pb => .ok (orOp pa pb)
     | .error e, _ => .error e
     | _, .error e => .error e)
  | .notN a =>
    (match compile a with
     | .ok pa => .ok (notOp pa)
     | .error e => .error e)

/-- Compile an AST and run the predicate on one record. -/
def runCompiled (a : Ast) (r : Value) : Except String Bool :=
  match compile a with
  | .ok p => .ok (p r)
  | .error e => .error e

/-- The sole public entry point: expression string to predicate. -/
def compileFilter (s : String) : Except String Pred :=
  match parseFilter s with
  | .ok a => compile a
  | .error msg => .error msg

/-- Evaluate a filter expression against one record. -/
def evalFilter (s : String) (r : Value) : Except String Bool :=
  match compileFilter s with
  | .ok p => .ok (p r)
  | .error msg => .error msg

/-- The yacc grammar of the source, transcribed production by production
as a derivability relation on token sequences: `Derives ts a` holds iff
the grammar can derive the token sequence `ts` from the start symbol
`expr`, building the syntax tree `a`. (Precedence declarations only
disambiguate; they do not change the derivable language.) -/
inductive Derives : List Token → Ast → Prop where
  | cmp : ∀ f t op v, cmpLex t = some op →
      Derives [.idT f, t, .scalarT v] (.cmp f op v)
  | mem : ∀ f vs, Derives [.idT f, .inT, .listT vs] (.member f vs)
  | group : ∀ ts a, Derives ts a → Derives (.lparenT :: ts ++ [.rparenT]) a
  | notD : ∀ ts a, Derives ts a → Derives (.notT :: ts) (.notN a)
  | andD : ∀ ts us a b, Derives ts a → Derives us b →
      Derives (ts ++ .andT :: us) (.andN a b)
  | orD : ∀ ts us a b, Derives ts a → Derives us b →
      Derives (ts ++ .orT :: us) (.orN a b)

/-- Every comparison node's operator lexeme is a key of the `ops` table. -/
def opsWf : Ast → Bool
  | .cmp _ op _ => (lookupOps op).isSome
  | .member _ _ => true
  | .andN a b => opsWf a && opsWf b
  | .orN a b => opsWf a && opsWf b
  | .notN a => opsWf a

/-- Soundness obligation of one parser mode (used to state the parser
soundness lemma uniformly): modes `u` and `bin` derive the consumed
prefix outright; mode `loop` extends any derivation of its left
operand. -/
def ModeSound : PMode → List Token → Ast → Prop
  | .u, pre, a => Derives pre a
  | .bin _, pre, a => Derives pre a
  | .loop _ left, pre, a => ∀ pre0, Derives pre0 left → Derives (pre0 ++ pre) a

/-- Parser soundness: whenever a parser mode returns a syntax tree and a
remainder, the consumed prefix of the input is derivable by the grammar
(in the sense appropriate to the mode). -/
theorem parseGo_sound (fuel : Nat) : ∀ (mode : PMode) (ts : List Token) (a : Ast)
    (rest : List Token), parseGo fuel mode ts = .ok (a, rest) →
    ∃ pre, ts = pre ++ rest ∧ ModeSound mode pre a := by
  induction fuel with
  | zero =>
    intro mode ts a rest h
    simp [parseGo] at h
  | succ fuel ih =>
    intro mode ts a rest h
    rw [parseGo.eq_def] at h
    split at h
    -- arm: fuel exhausted (impossible: the equation hypothesis is absurd)
    · simp at h
    -- arm: mode u, NOT expr
    · rename_i fuel2 rest1 heq
      obtain rfl : fuel2 = fuel := by omega
      cases hrec : parseGo fuel2 .u rest1 with
      | ok pr =>
        obtain ⟨e, r⟩ := pr
        rw [hrec] at h
        simp at h
        obtain ⟨rfl, rfl⟩ := h
        obtain ⟨pre, hpre, hd⟩ := ih _ _ _ _ hrec
        exact ⟨.notT :: pre, by simp [hpre], Derives.notD pre e hd⟩
      | error msg => rw [hrec] at h; simp at h
    -- arm: mode u, parenthesized group
    · rename_i fuel2 rest1 heq
      obtain rfl : fuel2 = fuel := by omega
      cases hrec : parseGo fuel2 (.bin 0) rest1 with
      | ok pr =>
        obtain ⟨e, r⟩ := pr
        rw [hrec] at h
        match r, h with
        | .rparenT :: r2, h =>
          simp at h
          obtain ⟨rfl, rfl⟩ := h
          obtain ⟨pre, hpre, hd⟩ := ih _ _ _ _ hrec
          refine ⟨.lparenT :: pre ++ [.rparenT], ?_, ?_⟩
          · simp [hpre]
          · show Derives (Token.lparenT :: pre ++ [Token.rparenT]) _
            exact Derives.group pre _ hd
        | [], h => simp at h
        | .idT s :: r2, h => simp at h
        | .scalarT v :: r2, h => simp at h
        | .listT vs :: r2, h => simp at h
        | .eqT :: r2, h => simp at h
        | .neT :: r2, h => simp at h
        | .ltT :: r2, h => simp at h
        | .gtT :: r2, h => simp at h
        | .leT :: r2, h => simp at h
        | .geT :: r2, h => simp at h
        | .andT :: r2, h => simp at h
        | .orT :: r2, h => simp at h
        | .notT :: r2, h => simp at h
        | .lparenT :: r2, h => simp at h
        | .inT :: r2, h => simp at h
      | error msg => rw [hrec] at h; simp at h
    -- arm: mode u, comparison
    · rename_i n f t v rest1 heq
      cases hop : cmpLex t with
      | some op =>
        rw [hop] at h
        simp at h
        obtain ⟨rfl, rfl⟩ := h
        exact ⟨[.idT f, t, .scalarT v], rfl, Derives.cmp f t op v hop⟩
      | none => rw [hop] at h; simp at h
    -- arm: mode u, membership
    · rename_i n f vs rest1 heq
      simp at h
      obtain ⟨rfl, rfl⟩ := h
      exact ⟨[.idT f, .inT, .listT vs], rfl, Derives.mem f vs⟩
    -- arm: mode u, no production applies
    · simp at h
    -- arm: mode bin
    · rename_i fuel2 min heq
      obtain rfl : fuel2 = fuel := by omega
      split at h
      · rename_i l r hrec
        obtain ⟨pre1, hpre1, hd1⟩ := ih _ _ _ _ hrec
        obtain ⟨pre2, hpre2, hd2⟩ := ih _ _ _ _ h
        refine ⟨pre1 ++ pre2, ?_, ?_⟩
        · simp [hpre1, hpre2]
        · show Derives (pre1 ++ pre2) _
          exact hd2 pre1 hd1
      · simp at h
    -- arm: mode loop, OR continuation
    · rename_i fuel2 min left rest1 heq
      obtain rfl : fuel2 = fuel := by omega
      by_cases hmin : min ≤ 1
      · rw [if_pos hmin] at h
        cases hrec : parseGo fuel2 (.bin 2) rest1 with
        | ok pr =>
          obtain ⟨right, r2⟩ := pr
          rw [hrec] at h
          replace h : parseGo fuel2 (.loop min (.orN left right)) r2 = Except.ok (a, rest) := h
          obtain ⟨preR, hpreR, hdR⟩ := ih _ _ _ _ hrec
          obtain ⟨preL, hpreL, hdL⟩ := ih _ _ _ _ h
          refine ⟨.orT :: preR ++ preL, by simp [hpreR, hpreL], ?_⟩
          intro pre0 hd0
          have hor := Derives.orD pre0 preR left right hd0 hdR
          have hfin := hdL (pre0 ++ .orT :: preR) hor
          simpa using hfin
        | error msg => rw [hrec] at h; simp at h
      · rw [if_neg hmin] at h
        simp at h
        obtain ⟨rfl, rfl⟩ := h
        exact ⟨[], rfl, fun pre0 hd0 => by simpa using hd0⟩
    -- arm: mode loop, AND continuation
    · rename_i fuel2 min left rest1 heq
      obtain rfl : fuel2 = fuel := by omega
      by_cases hmin : min ≤ 2
      · rw [if_pos hmin] at h
        cases hrec : parseGo fuel2 (.bin 3) rest1 with
        | ok pr =>
          obtain ⟨right, r2⟩ := pr
          rw [hrec] at h
          replace h : parseGo fuel2 (.loop min (.andN left right)) r2 = Except.ok (a, rest) := h
          obtain ⟨preR, hpreR, hdR⟩ := ih _ _ _ _ hrec
          obtain ⟨preL, hpreL, hdL⟩ := ih _ _ _ _ h
          refine ⟨.andT :: preR ++ preL, by simp [hpreR, hpreL], ?_⟩
          intro pre0 hd0
          have hand := Derives.andD pre0 preR left right hd0 hdR
          have hfin := hdL (pre0 ++ .andT :: preR) hand
          simpa using hfin
        | error msg => rw [hrec] at h; simp at h
      · rw [if_neg hmin] at h
        simp at h
        obtain ⟨rfl, rfl⟩ := h
        exact ⟨[], rfl, fun pre0 hd0 => by simpa using hd0⟩
    -- arm: mode loop, no binary operator follows
    · simp at h
      obtain ⟨rfl, rfl⟩ := h
      exact ⟨[], rfl, fun pre0 hd0 => by simpa using hd0⟩

/-- Top-level parser soundness: an accepted token sequence is derivable
by the grammar. -/
theorem parseTokens_sound (ts : List Token) (a : Ast)
    (h : parseTokens ts = .ok a) : Derives ts a := by
  unfold parseTokens at h
  cases hrec : parseGo (2 * ts.length + 2) (.bin 0) ts with
  | ok pr =>
    obtain ⟨b, r⟩ := pr
    rw [hrec] at h
    cases r with
    | nil =>
      simp at h
      subst h
      obtain ⟨pre, hpre, hd⟩ := parseGo_sound _ _ _ _ _ hrec
      simpa [hpre] using hd
    | cons t r2 => simp at h
  | error msg => rw [hrec] at h; simp at h

/-- Every derivable token sequence begins with an identifier, an opening
parenthesis, or a negation. -/
theorem derives_starts (ts : List Token) (a : Ast) (h : Derives ts a) :
    ∃ rest, (∃ f, ts = .idT f :: rest) ∨ ts = .lparenT :: rest ∨ ts = .notT :: rest := by
  induction h with
  | cmp f t op v hop => exact ⟨[t, .scalarT v], .inl ⟨f, rfl⟩⟩
  | mem f vs => exact ⟨[.inT, .listT vs], .inl ⟨f, rfl⟩⟩
  | group ts a hd ih => exact ⟨ts ++ [.rparenT], .inr (.inl (by simp))⟩
  | notD ts a hd ih => exact ⟨ts, .inr (.inr rfl)⟩
  | andD ts us a b h1 h2 ih1 ih2 =>
    obtain ⟨rest, hc⟩ := ih1
    rcases hc with ⟨f, hf⟩ | hf | hf
    · exact ⟨rest ++ .andT :: us, .inl ⟨f, by simp [hf]⟩⟩
    · exact ⟨rest ++ .andT :: us, .inr (.inl (by simp [hf]))⟩
    · exact ⟨rest ++ .andT :: us, .inr (.inr (by simp [hf]))⟩
  | orD ts us a b h1 h2 ih1 ih2 =>
    obtain ⟨rest, hc⟩ := ih1
    rcases hc with ⟨f, hf⟩ | hf | hf
    · exact ⟨rest ++ .orT :: us, .inl ⟨f, by simp [hf]⟩⟩
    · exact ⟨rest ++ .orT :: us, .inr (.inl (by simp [hf]))⟩
    · exact ⟨rest ++ .orT :: us, .inr (.inr (by simp [hf]))⟩

/-- Every operator lexeme a comparison token can carry is a key of the
`ops` table. -/
theorem cmpLex_ops (t : Token) (op : String) (h : cmpLex t = some op) :
    (lookupOps op).isSome = true := by
  cases t <;> simp [cmpLex] at h <;> subst h <;> rfl

/-- Every syntax tree the grammar can derive mentions only operator
lexemes of the `ops` table. -/
theorem derives_opsWf (ts : List Token) (a : Ast) (h : Derives ts a) :
    opsWf a = true := by
  induction h with
  | cmp f t op v hop => simpa [opsWf] using cmpLex_ops t op hop
  | mem f vs => rfl
  | group ts a hd ih => exact ih
  | notD ts a hd ih => simpa [opsWf] using ih
  | andD ts us a b h1 h2 ih1 ih2 => simp [opsWf, ih1, ih2]
  | orD ts us a b h1 h2 ih1 ih2 => simp [opsWf, ih1, ih2]

/-- Compilation succeeds on every syntax tree whose operator lexemes are
keys of the `ops` table. -/
theorem compile_ok (a : Ast) (h : opsWf a = true) : ∃ p, compile a = .ok p := by
  induction a with
  | cmp k op v =>
    simp only [opsWf] at h
    obtain ⟨f, hf⟩ := Option.isSome_iff_exists.mp h
    exact ⟨fieldTest k (fun rv => f rv v), by simp [compile, binOp, hf]⟩
  | member k vs => exact ⟨_, rfl⟩
  | andN a b iha ihb =>
    simp only [opsWf, Bool.and_eq_true] at h
    obtain ⟨pa, hpa⟩ := iha h.1
    obtain ⟨pb, hpb⟩ := ihb h.2
    exact ⟨andOp pa pb, by simp [compile, hpa, hpb]⟩
  | orN a b iha ihb =>
    simp only [opsWf, Bool.and_eq_true] at h
    obtain ⟨pa, hpa⟩ := iha h.1
    obtain ⟨pb, hpb⟩ := ihb h.2
    exact ⟨orOp pa pb, by simp [compile, hpa, hpb]⟩
  | notN a iha =>
    simp only [opsWf] at h
    obtain ⟨pa, hpa⟩ := iha h
    exact ⟨notOp pa, by simp [compile, hpa]⟩

/-- Functional field resolution agrees with the relational presentation:
a path resolves to a value exactly when the segment-by-segment walk
relation reaches that value. -/
theorem resolveSegs_iff (ss : List String) : ∀ (r v : Value),
    resolveSegs r ss = some v ↔ ResolvesTo r ss v := by
  induction ss with
  | nil =>
    intro r v
    constructor
    · intro h
      simp [resolveSegs] at h
      subst h
      exact ResolvesTo.nil r
    · intro h
      cases h
      simp [resolveSegs]
  | cons s ss ih =>
    intro r v
    constructor
    · intro h
      cases r with
      | dict fs =>
        simp only [resolveSegs] at h
        cases hl : lookupStr fs s with
        | some u =>
          rw [hl] at h
          exact ResolvesTo.step fs s u ss v hl ((ih u v).mp h)
        | none => rw [hl] at h; simp at h
      | int n => simp [resolveSegs] at h
      | float q => simp [resolveSegs] at h
      | str t => simp [resolveSegs] at h
      | bool b => simp [resolveSegs] at h
      | list vs => simp [resolveSegs] at h
    · intro h
      cases h with
      | step fs2 s2 u2 ss2 w2 hl hr =>
        simp only [resolveSegs, hl]
        exact (ih u2 _).mpr hr

/-- Claim C1: a dotted identifier's field path is split on the dots into
an ordered sequence of segments, and resolving it against a record walks
successive nested-mapping lookups one segment at a time; when a segment
is missing, or an intermediate value is not a mapping while segments
remain, resolution yields absent (not an error) — illustrated on
`user_config.seed`. -/
theorem C1_field_path_resolution :
    (∀ (key : String) (r v : Value),
      resolveField r key = some v ↔ ResolvesTo r (splitPath key) v)
    ∧ splitPath "user_config.seed" = ["user_config", "seed"]
    ∧ resolveField (.dict [("user_config", .dict [("seed", .int 0)])])
        "user_config.seed" = some (.int 0)
    ∧ resolveField (.dict []) "user_config.seed" = none
    ∧ resolveField (.dict [("user_config", .int 5)]) "user_config.seed" = none
    ∧ evalFilter "user_config.seed==0"
        (.dict [("user_config", .dict [("seed", .int 0)])]) = .ok true :=
  ⟨fun key r v => resolveSegs_iff (splitPath key) r v, rfl, rfl, rfl, rfl, rfl⟩

/-- Claim C2: when the resolved field value and the literal of a
comparison are not comparable under an ordering operator, the node
evaluates to false (and, the predicate being a total function, never
raises) — illustrated by the record holding the string value needed for
the spec's example `n<5`. -/
theorem C2_type_mismatch_false :
    (∀ (r : Value) (k op : String) (lit : Lit) (v : Value),
      op ∈ ["<", ">", "<=", ">="] →
      resolveField r k = some v →
      pyCompare? v lit = none →
      runCompiled (.cmp k op lit) r = .ok false)
    ∧ evalFilter "n<5" (.dict [("n", .str "abc")]) = .ok false := by
  refine ⟨?_, rfl⟩
  intro r k op lit v hop hres hcmp
  fin_cases hop
  · have hl : lookupOps "<" = some opLt := rfl
    simp [runCompiled, compile, binOp, hl, fieldTest, hres, opLt, hcmp]
  · have hl : lookupOps ">" = some opGt := rfl
    simp [runCompiled, compile, binOp, hl, fieldTest, hres, opGt, hcmp]
  · have hl : lookupOps "<=" = some opLe := rfl
    simp [runCompiled, compile, binOp, hl, fieldTest, hres, opLe, hcmp]
  · have hl : lookupOps ">=" = some opGe := rfl
    simp [runCompiled, compile, binOp, hl, fieldTest, hres, opGe, hcmp]

/-- Claim C2, witness: the general statement applied to the spec's
example, record with field n holding the string abc against `n<5`. -/
theorem C2_type_mismatch_false_witness :
    ("<" ∈ ["<", ">", "<=", ">="]
      ∧ resolveField (Value.dict [("n", Value.str "abc")]) "n"
          = some (Value.str "abc")
      ∧ pyCompare? (Value.str "abc") (Lit.int 5) = none)
    ∧ runCompiled (Ast.cmp "n" "<" (Lit.int 5))
        (Value.dict [("n", Value.str "abc")]) = .ok false :=
  ⟨⟨by simp, rfl, rfl⟩,
    C2_type_mismatch_false.1 _ _ _ _ _ (by simp) rfl rfl⟩

/-- Claim C3: a Comparison or Membership node whose field path does not
resolve evaluates to false (not an error); consequently the empty record
evaluates to false against `x==1` and to true against `~(x==1)`. -/
theorem C3_missing_field_false :
    (∀ (r : Value) (k op : String) (lit : Lit) (f : Value → Lit → Bool),
      lookupOps op = some f →
      resolveField r k = none →
      runCompiled (.cmp k op lit) r = .ok false)
    ∧ (∀ (r : Value) (k : String) (vs : List Lit),
      resolveField r k = none →
      runCompiled (.member k vs) r = .ok false)
    ∧ evalFilter "x==1" (.dict []) = .ok false
    ∧ evalFilter "~(x==1)" (.dict []) = .ok true := by
  refine ⟨?_, ?_, rfl, rfl⟩
  · intro r k op lit f hop hres
    simp [runCompiled, compile, binOp, hop, fieldTest, hres]
  · intro r k vs hres
    simp [runCompiled, compile, inclusionOp, fieldTest, hres]

/-- Claim C3, witness: both general statements applied to the empty
record, whose fields all fail to resolve. -/
theorem C3_missing_field_false_witness :
    (lookupOps "==" = some opEq
      ∧ resolveField (Value.dict []) "x" = none)
    ∧ runCompiled (Ast.cmp "x" "==" (Lit.int 1)) (Value.dict []) = .ok false
    ∧ runCompiled (Ast.member "tag" [Lit.int 1]) (Value.dict []) = .ok false :=
  ⟨⟨rfl, rfl⟩, C3_missing_field_false.1 _ _ _ _ _ rfl rfl,
    C3_missing_field_false.2.1 _ _ _ rfl⟩

/-- Claim C4: AND binds tighter than OR and both are left-associative:
`a==1 | b==2 & c==3` parses with the conjunction nested under the
disjunction, `a==1 & b==2 | c==3` groups its left conjunction first, and
chains of the same operator group to the left. -/
theorem C4_or_and_precedence :
    parseFilter "a==1 | b==2 & c==3"
      = .ok (.orN (.cmp "a" "==" (.int 1))
          (.andN (.cmp "b" "==" (.int 2)) (.cmp "c" "==" (.int 3))))
    ∧ parseFilter "a==1 & b==2 | c==3"
      = .ok (.orN (.andN (.cmp "a" "==" (.int 1)) (.cmp "b" "==" (.int 2)))
          (.cmp "c" "==" (.int 3)))
    ∧ parseFilter "a==1 | b==2 | c==3"
      = .ok (.orN (.orN (.cmp "a" "==" (.int 1)) (.cmp "b" "==" (.int 2)))
          (.cmp "c" "==" (.int 3)))
    ∧ parseFilter "a==1 & b==2 & c==3"
      = .ok (.andN (.andN (.cmp "a" "==" (.int 1)) (.cmp "b" "==" (.int 2)))
          (.cmp "c" "==" (.int 3))) :=
  ⟨rfl, rfl, rfl, rfl⟩

/-- Claim C5: NOT binds tighter than AND and OR but looser than a
comparison, so `~a==1 & b==2` negates only the first comparison; the
whole-conjunction reading requires explicit parentheses. -/
theorem C5_not_binding :
    parseFilter "~a==1 & b==2"
      = .ok (.andN (.notN (.cmp "a" "==" (.int 1)))
          (.cmp "b" "==" (.int 2)))
    ∧ parseFilter "~(a==1 & b==2)"
      = .ok (.notN (.andN (.cmp "a" "==" (.int 1))
          (.cmp "b" "==" (.int 2)))) :=
  ⟨rfl, rfl⟩

/-- Claim C6 (code bug): the boolean rule's regex matches `true`/`false`
case-insensitively, but its action decodes the matched text with a
Python-literal evaluator that only accepts the exact spellings `True`
and `False`; every other casing makes the tokenizer raise instead of
emitting a Scalar token. -/
theorem C6_bool_case_sensitivity :
    tokenize "True" = .ok [.scalarT (.bool true)]
    ∧ tokenize "False" = .ok [.scalarT (.bool false)]
    ∧ tokenize "true" = .error "malformed node or string"
    ∧ tokenize "false" = .error "malformed node or string"
    ∧ tokenize "TRUE" = .error "malformed node or string"
    ∧ tokenize "b==true" = .error "malformed node or string" :=
  ⟨rfl, rfl, rfl, rfl, rfl, rfl⟩

/-- Claim C7, counterexample: a bracketed list literal whose element is a
boolean in non-Python casing is not decoded into a List token — the
decoder raises on it. -/
theorem C7_counterexample_lowercase_bool :
    tokenize "[true]" = .error "malformed node or string"
    ∧ tokenize "x in [true]" = .error "malformed node or string" :=
  ⟨rfl, rfl⟩

/-- Claim C7 (amended): a bracketed list literal is decoded into an
ordered sequence of literals by parsing its comma-separated elements as
Python literals — numbers, quoted strings, and booleans spelled exactly
`True`/`False`; a boolean element in any other casing raises an error
instead of decoding. -/
theorem C7_list_literal_decoding :
    tokenize "[1, 'a', True]" = .ok [.listT [.int 1, .str "a", .bool true]]
    ∧ tokenize "['a','b','c']"
      = .ok [.listT [.str "a", .str "b", .str "c"]]
    ∧ tokenize "[1, 2, 3]" = .ok [.listT [.int 1, .int 2, .int 3]]
    ∧ tokenize "[]" = .ok [.listT []]
    ∧ tokenize "[True, False]" = .ok [.listT [.bool true, .bool false]]
    ∧ tokenize "[true]" = .error "malformed node or string" :=
  ⟨rfl, rfl, rfl, rfl, rfl, rfl⟩

/-- Claim C8: a token sequence the grammar cannot derive is rejected
with a parse error (the parser accepts only derivable sequences, so a
violation — unexpected token, trailing tokens, unmatched parenthesis —
always fails); in particular the input `a== ==` fails. -/
theorem C8_parse_errors :
    (∀ ts : List Token, (∀ a, ¬ Derives ts a) →
      ∃ msg, parseTokens ts = .error msg)
    ∧ (∃ msg, parseFilter "a== ==" = .error msg)
    ∧ (∃ msg, parseFilter "(a==1" = .error msg)
    ∧ (∃ msg, parseFilter "a==1)" = .error msg)
    ∧ (∃ msg, parseFilter "a==1 b==2" = .error msg) := by
  refine ⟨?_, ⟨_, rfl⟩, ⟨_, rfl⟩, ⟨_, rfl⟩, ⟨_, rfl⟩⟩
  intro ts hnd
  cases hp : parseTokens ts with
  | ok a => exact absurd (parseTokens_sound ts a hp) (hnd a)
  | error msg => exact ⟨msg, rfl⟩

/-- Claim C8, witness: the token sequence holding one lone comparison
operator derives nothing, and the parser rejects it. -/
theorem C8_parse_errors_witness :
    (∀ a, ¬ Derives [Token.eqT] a)
    ∧ ∃ msg, parseTokens [Token.eqT] = .error msg := by
  have hnd : ∀ a, ¬ Derives [Token.eqT] a := by
    intro a hd
    obtain ⟨rest, hc⟩ := derives_starts _ _ hd
    rcases hc with ⟨f, hf⟩ | hf | hf <;> simp at hf
  exact ⟨hnd, C8_parse_errors.1 [Token.eqT] hnd⟩

/-- Claim C9: every syntax tree the parser produces compiles to a
predicate — the unknown-operator branch of `binOp` is unreachable,
because every operator lexeme the grammar can emit is a key of the `ops`
table. -/
theorem C9_compile_total :
    ∀ (ts : List Token) (a : Ast),
      parseTokens ts = .ok a → ∃ p, compile a = .ok p := by
  intro ts a hp
  exact compile_ok a (derives_opsWf ts a (parseTokens_sound ts a hp))

/-- Claim C9, witness: the general statement applied to the parse of
`a==1`. -/
theorem C9_compile_total_witness :
    parseTokens [Token.idT "a", Token.eqT, Token.scalarT (Lit.int 1)]
      = .ok (Ast.cmp "a" "==" (Lit.int 1))
    ∧ ∃ p, compile (Ast.cmp "a" "==" (Lit.int 1)) = .ok p :=
  ⟨rfl, C9_compile_total [Token.idT "a", Token.eqT, Token.scalarT (Lit.int 1)]
    (Ast.cmp "a" "==" (Lit.int 1)) rfl⟩

/-- Claim C10: an identifier beginning with the letters of a boolean
literal is not tokenized as a single ID token, although the whole text
matches the identifier rule: the boolean rule runs first and consumes
the prefix as a Scalar token, and the remaining characters are tokenized
separately. -/
theorem C10_bool_rule_preempts_id :
    idRuleMatchesAll "Trueflag" = true
    ∧ tokenize "Trueflag" = .ok [.scalarT (.bool true), .idT "flag"]
    ∧ idRuleMatchesAll "Falsedata" = true
    ∧ tokenize "Falsedata" = .ok [.scalarT (.bool false), .idT "data"] :=
  ⟨rfl, rfl, rfl, rfl⟩

end MlxpFilter
